import Mathlib

/-!
Verification development for `optimum/onnxruntime/modeling_diffusion.py`.

The file embeds, as executable Lean definitions, the parts of the module that the
properties below speak about: the symbolic shape solver `_get_output_shapes` of
`ORTPipelinePart`, input/output preparation (`_prepare_onnx_inputs`,
`_prepare_io_binding`), the UNet forward path with its io-binding output-shape
fast path, the cross-component attribute validation of `ORTDiffusionPipeline`,
and the `ORTWrapperVae` facade.  Theorems about these definitions follow the
definitions.
-/

namespace OptimumDiffusion

/-! ### Association lists (Python `dict` model)

Python dicts preserve insertion order and have unique keys; reads are modelled by
`alookup`, writes (`d[k] = v`) by `ainsert`, which replaces in place when the key
is present and appends otherwise. -/

/-- Python dict read `d[k]`, as an `Option`: `none` models a `KeyError`. -/
def alookup {α : Type} (l : List (String × α)) (k : String) : Option α :=
  match l with
  | [] => none
  | (k₁, v) :: rest => if k₁ = k then some v else alookup rest k

/-- Python dict write `d[k] = v`: replaces the value in place if the key is
present, appends otherwise. -/
def ainsert {α : Type} (l : List (String × α)) (k : String) (v : α) : List (String × α) :=
  match l with
  | [] => [(k, v)]
  | (k₁, v₁) :: rest => if k₁ = k then (k, v) :: rest else (k₁, v₁) :: ainsert rest k v

theorem alookup_ainsert_self {α : Type} (l : List (String × α)) (k : String) (v : α) :
    alookup (ainsert l k v) k = some v := by
  induction l with
  | nil => simp [ainsert, alookup]
  | cons p rest ih =>
    obtain ⟨k₁, v₁⟩ := p
    by_cases h : k₁ = k <;> simp [ainsert, alookup, h, ih]

theorem alookup_ainsert_ne {α : Type} (l : List (String × α)) (k k' : String) (v : α)
    (h : k ≠ k') : alookup (ainsert l k v) k' = alookup l k' := by
  induction l with
  | nil => simp [ainsert, alookup, h]
  | cons p rest ih =>
    obtain ⟨k₁, v₁⟩ := p
    by_cases h₁ : k₁ = k
    · subst h₁
      simp [ainsert, alookup, h]
    · simp only [ainsert, if_neg h₁]
      by_cases h₂ : k₁ = k' <;> simp [alookup, h₂, ih]

theorem alookup_mem {α : Type} {l : List (String × α)} {k : String} {v : α}
    (h : alookup l k = some v) : (k, v) ∈ l := by
  induction l with
  | nil => simp [alookup] at h
  | cons p rest ih =>
    obtain ⟨k₁, v₁⟩ := p
    by_cases h₁ : k₁ = k
    · subst h₁
      simp [alookup] at h
      simp [h]
    · simp [alookup, h₁] at h
      exact List.mem_cons_of_mem _ (ih h)

/-! ### Symbolic dimension expressions

`ORTPipelinePart._compile_shapes` turns every declared dimension of every input
and output into a sympy expression (`sp.sympify`): integer dimensions become
integer literals, symbolic dimension strings become symbols or algebraic
formulas over symbols.  `Dim` is the corresponding expression type; terms are
taken in sympy's auto-simplified form (sympy never produces terms such as
`0 * n`, and numeric subterms are folded on construction). -/

inductive Dim where
  | const (n : Int)
  | sym (name : String)
  | add (e₁ e₂ : Dim)
  | mul (e₁ e₂ : Dim)
deriving DecidableEq, Repr

/-- All symbol occurrences of an expression, with multiplicity. -/
def Dim.symOccs : Dim → List String
  | .const _ => []
  | .sym s => [s]
  | .add e₁ e₂ => e₁.symOccs ++ e₂.symOccs
  | .mul e₁ e₂ => e₁.symOccs ++ e₂.symOccs

/-- sympy `expr.free_symbols`, as a duplicate-free list. -/
def Dim.freeSymbols (e : Dim) : List String := e.symOccs.dedup

/-- Numeric folding step for `+`: sympy evaluates a sum of two numbers. -/
def dimAdd : Dim → Dim → Dim
  | .const a, .const b => .const (a + b)
  | e₁, e₂ => .add e₁ e₂

/-- Numeric folding step for `*`: sympy evaluates a product of two numbers. -/
def dimMul : Dim → Dim → Dim
  | .const a, .const b => .const (a * b)
  | e₁, e₂ => .mul e₁ e₂

/-- sympy `expr.subs(known_symbols)`: substitute the bound symbols and evaluate
numeric subterms, leaving unbound symbols in place. -/
def subsDim (σ : List (String × Int)) : Dim → Dim
  | .const n => .const n
  | .sym s =>
    match alookup σ s with
    | some v => .const v
    | none => .sym s
  | .add e₁ e₂ => dimAdd (subsDim σ e₁) (subsDim σ e₂)
  | .mul e₁ e₂ => dimMul (subsDim σ e₁) (subsDim σ e₂)

theorem symOccs_dimAdd (e₁ e₂ : Dim) :
    (dimAdd e₁ e₂).symOccs = e₁.symOccs ++ e₂.symOccs := by
  cases e₁ <;> cases e₂ <;> simp [dimAdd, Dim.symOccs]

theorem symOccs_dimMul (e₁ e₂ : Dim) :
    (dimMul e₁ e₂).symOccs = e₁.symOccs ++ e₂.symOccs := by
  cases e₁ <;> cases e₂ <;> simp [dimMul, Dim.symOccs]

theorem mem_symOccs_subsDim (σ : List (String × Int)) (e : Dim) (s : String) :
    s ∈ (subsDim σ e).symOccs ↔ s ∈ e.symOccs ∧ alookup σ s = none := by
  induction e with
  | const n => simp [subsDim, Dim.symOccs]
  | sym t =>
    by_cases h : t = s
    · subst h
      cases hlk : alookup σ t <;> simp [subsDim, hlk, Dim.symOccs]
    · cases hlk : alookup σ t <;>
        simp [subsDim, hlk, Dim.symOccs, h, Ne.symm h]
  | add e₁ e₂ ih₁ ih₂ =>
    simp only [subsDim, symOccs_dimAdd, Dim.symOccs, List.mem_append, ih₁, ih₂]
    tauto
  | mul e₁ e₂ ih₁ ih₂ =>
    simp only [subsDim, symOccs_dimMul, Dim.symOccs, List.mem_append, ih₁, ih₂]
    tauto

theorem mem_freeSymbols_subsDim (σ : List (String × Int)) (e : Dim) (s : String) :
    s ∈ (subsDim σ e).freeSymbols ↔ s ∈ e.freeSymbols ∧ alookup σ s = none := by
  simp [Dim.freeSymbols, List.mem_dedup, mem_symOccs_subsDim]

/-! ### The one-variable solver of `_get_output_shapes`

For an input dimension whose compiled expression has exactly one free symbol and
is not the bare symbol, the code runs `sp.solve(expr - dim, symbol)` and, when
the solution list is non-empty, binds the symbol to `int(solution[0])` (Python
`int()` truncates an exact rational toward zero).  Shape formulas are affine in
their one symbol; on the affine fragment sympy's solver returns the exact
rational `(dim - b) / a` for `a*s + b - dim = 0` whenever `a ≠ 0`, and an empty
solution list otherwise. -/

/-- Linear-form extraction with respect to symbol `s`: `some (a, b)` when the
expression equals `a*s + b` as a polynomial in `s`, `none` when it is not
affine in `s`. -/
def linOf (s : String) : Dim → Option (Int × Int)
  | .const n => some (0, n)
  | .sym t => if t = s then some (1, 0) else none
  | .add e₁ e₂ => do
    let (a₁, b₁) ← linOf s e₁
    let (a₂, b₂) ← linOf s e₂
    pure (a₁ + a₂, b₁ + b₂)
  | .mul e₁ e₂ => do
    let (a₁, b₁) ← linOf s e₁
    let (a₂, b₂) ← linOf s e₂
    if a₁ = 0 then pure (b₁ * a₂, b₁ * b₂)
    else if a₂ = 0 then pure (a₁ * b₂, b₁ * b₂)
    else none

/-- Model of `int(sp.solve(expr - dim, symbol)[0])` when the solution list is non-empty,
`none` when `sp.solve` returns no solution.  `Int.tdiv` is Python `int()`
truncation toward zero of the exact rational solution. -/
def solveDim (s : String) (e : Dim) (d : Int) : Option Int :=
  match linOf s e with
  | some (a, b) => if a = 0 then none else some (Int.tdiv (d - b) a)
  | none => none

/-- The symbol binding performed by one input dimension of the phase-1 loop of
`_get_output_shapes` (`none` when the dimension has no free symbol, or when the
loop raises instead of binding). -/
def dimBinding (e : Dim) (d : Int) : Option (String × Int) :=
  match e.freeSymbols with
  | [] => none
  | [s] => if e = .sym s then some (s, d) else (solveDim s e d).map (fun v => (s, v))
  | _ => none

/-- Errors raised by `_get_output_shapes` (all `ValueError` in the source; the
constructors carry the data interpolated into the message). -/
inductive ShapeError where
  | missingInput (inputName : String)
  | unresolvableDimension (inputName : String) (symbolName : String) (expr : Dim) (d : Int)
  | ambiguousDimension (inputName : String) (expr : Dim) (d : Int)
  | unresolvedOutputShape (className : String) (unresolved : List (String × List Dim))
deriving DecidableEq, Repr

/-- One iteration of the inner loop of `_get_output_shapes` (lines 581-601):
bind the symbol of one input dimension, or raise. -/
def bindDim (inputName : String) (known : List (String × Int)) (e : Dim) (d : Int) :
    Except ShapeError (List (String × Int)) :=
  match e.freeSymbols with
  | [] => .ok known
  | [s] =>
    if e = .sym s then .ok (ainsert known s d)
    else
      match solveDim s e d with
      | some v => .ok (ainsert known s v)
      | none => .error (.unresolvableDimension inputName s e d)
  | _ => .error (.ambiguousDimension inputName e d)

/-- The inner loop of `_get_output_shapes` over the zipped compiled and observed
dimensions of one input. -/
def bindDims (inputName : String) (known : List (String × Int)) :
    List (Dim × Int) → Except ShapeError (List (String × Int))
  | [] => .ok known
  | (e, d) :: rest =>
    match bindDim inputName known e d with
    | .ok known₁ => bindDims inputName known₁ rest
    | .error err => .error err

/-- The outer phase-1 loop of `_get_output_shapes` (lines 579-601): derive symbol
values from the observed shapes of all inputs.  `model_inputs[input_name]`
raises `KeyError` when an input is missing, modelled by `missingInput`. -/
def bindInputs (known : List (String × Int)) (modelInputs : List (String × List Int)) :
    List (String × List Dim) → Except ShapeError (List (String × Int))
  | [] => .ok known
  | (inputName, compiledShape) :: rest =>
    match alookup modelInputs inputName with
    | none => .error (.missingInput inputName)
    | some observed =>
      match bindDims inputName known (compiledShape.zip observed) with
      | .ok known₁ => bindInputs known₁ modelInputs rest
      | .error err => .error err

/-- The state of an `ORTPipelinePart` needed by the shape, input-preparation and
forward claims.  `knownSymbols` is `_known_symbols` (the integer-valued
configuration fields, seeded at construction); `compiledInputShapes` and
`compiledOutputShapes` are `_compiled_input_shapes` / `_compiled_output_shapes`
(the declared shapes with the configuration symbols already substituted, as
`_compile_shapes` leaves them); `inputDtypes` maps input names to the declared
ONNX type strings such as `"tensor(float)"`. -/
structure ORTPipelinePart where
  className : String
  knownSymbols : List (String × Int)
  inputNames : List String
  outputNames : List String
  inputDtypes : List (String × String)
  compiledInputShapes : List (String × List Dim)
  compiledOutputShapes : List (String × List Dim)
  useIoBinding : Bool
deriving DecidableEq, Repr

/-- Embedding of `ORTPipelinePart._get_output_shapes` (lines 576-620): resolve symbols from
the observed input shapes, substitute them into every output dimension, and
either return the fully concrete output shapes (as sympy integer tuples) or
raise naming the class and the unresolved outputs. -/
def getOutputShapes (part : ORTPipelinePart) (modelInputs : List (String × List Int)) :
    Except ShapeError (List (String × List Dim)) :=
  match bindInputs part.knownSymbols modelInputs part.compiledInputShapes with
  | .error err => .error err
  | .ok known =>
    let subbed := part.compiledOutputShapes.map (fun p => (p.1, p.2.map (subsDim known)))
    let unresolved := subbed.filter (fun p => p.2.any (fun e => !e.freeSymbols.isEmpty))
    let resolved := subbed.filter (fun p => !p.2.any (fun e => !e.freeSymbols.isEmpty))
    if unresolved.isEmpty then .ok resolved
    else .error (.unresolvedOutputShape part.className unresolved)

/-! ### Lemmas about the phase-1 symbol derivation -/

theorem bindDim_ok {inputName : String} {known known' : List (String × Int)} {e : Dim} {d : Int}
    (h : bindDim inputName known e d = .ok known') :
    (dimBinding e d = none ∧ known' = known) ∨
      ∃ s v, dimBinding e d = some (s, v) ∧ known' = ainsert known s v := by
  unfold bindDim at h
  split at h
  · rename_i hfs
    simp at h
    exact Or.inl ⟨by simp [dimBinding, hfs], h.symm⟩
  · rename_i s hfs
    split at h
    · rename_i he
      simp at h
      refine Or.inr ⟨s, d, ?_, h.symm⟩
      simp only [dimBinding, hfs]
      rw [if_pos he]
    · rename_i he
      cases hsv : solveDim s e d with
      | none => rw [hsv] at h; exact absurd h (by simp)
      | some v =>
        rw [hsv] at h
        simp at h
        refine Or.inr ⟨s, v, ?_, h.symm⟩
        simp only [dimBinding, hfs]
        rw [if_neg he, hsv]
        rfl
  · rename_i x hfs
    exact absurd h (by simp)

theorem bindDims_lookup (inputName s : String) (v : Int) :
    ∀ (pairs : List (Dim × Int)) (known known' : List (String × Int)),
      bindDims inputName known pairs = .ok known' →
      (∀ e d w, (e, d) ∈ pairs → dimBinding e d = some (s, w) → w = v) →
      ((∃ e d, (e, d) ∈ pairs ∧ dimBinding e d = some (s, v)) → alookup known' s = some v) ∧
      ((∀ e d w, (e, d) ∈ pairs → dimBinding e d = some w → w.1 ≠ s) →
        alookup known' s = alookup known s) := by
  intro pairs
  induction pairs with
  | nil =>
    intro known known' h _
    simp [bindDims] at h
    subst h
    exact ⟨by simp, fun _ => rfl⟩
  | cons p rest ih =>
    obtain ⟨e₀, d₀⟩ := p
    intro known known' h hagree
    rw [bindDims] at h
    cases hbd : bindDim inputName known e₀ d₀ with
    | error err => rw [hbd] at h; exact absurd h (by simp)
    | ok known₁ =>
      rw [hbd] at h
      simp only [] at h
      have hagree' : ∀ e d w, (e, d) ∈ rest → dimBinding e d = some (s, w) → w = v :=
        fun e d w hm => hagree e d w (List.mem_cons_of_mem _ hm)
      have ihr := ih known₁ known' h hagree'
      rcases bindDim_ok hbd with ⟨hnone, hkk⟩ | ⟨t, w, hsome, hkk⟩
      · subst hkk
        constructor
        · rintro ⟨e, d, hmem, hbind⟩
          rcases List.mem_cons.mp hmem with heq | hmem'
          · rw [show e = e₀ from congrArg Prod.fst heq,
               show d = d₀ from congrArg Prod.snd heq] at hbind
            rw [hnone] at hbind
            exact absurd hbind (by simp)
          · exact ihr.1 ⟨e, d, hmem', hbind⟩
        · intro hnw
          exact ihr.2 (fun e d w hm => hnw e d w (List.mem_cons_of_mem _ hm))
      · by_cases hts : t = s
        · have hwv : w = v := by
            refine hagree e₀ d₀ w (List.mem_cons_self _ _) ?_
            rw [hsome, hts]
          have hres : alookup known' s = some v := by
            by_cases hrest : ∃ e d, (e, d) ∈ rest ∧ dimBinding e d = some (s, v)
            · exact ihr.1 hrest
            · have hnw : ∀ e d w₀, (e, d) ∈ rest → dimBinding e d = some w₀ → w₀.1 ≠ s := by
                intro e d w₀ hm hb hws
                apply hrest
                obtain ⟨w₁, w₂⟩ := w₀
                simp only [] at hws
                rw [hws] at hb
                have := hagree' e d w₂ hm hb
                rw [this] at hb
                exact ⟨e, d, hm, hb⟩
              rw [ihr.2 hnw, hkk, hts, hwv, alookup_ainsert_self]
          exact ⟨fun _ => hres,
            fun hnw => absurd hts (hnw e₀ d₀ (t, w) (List.mem_cons_self _ _) hsome)⟩
        · constructor
          · rintro ⟨e, d, hmem, hbind⟩
            rcases List.mem_cons.mp hmem with heq | hmem'
            · rw [show e = e₀ from congrArg Prod.fst heq,
                 show d = d₀ from congrArg Prod.snd heq] at hbind
              rw [hsome] at hbind
              simp at hbind
              exact absurd hbind.1 hts
            · exact ihr.1 ⟨e, d, hmem', hbind⟩
          · intro hnw
            rw [ihr.2 (fun e d w₀ hm => hnw e d w₀ (List.mem_cons_of_mem _ hm)), hkk]
            exact alookup_ainsert_ne known t s w hts

theorem bindInputs_lookup (s : String) (v : Int) (modelInputs : List (String × List Int)) :
    ∀ (ishapes : List (String × List Dim)) (known known' : List (String × Int)),
      bindInputs known modelInputs ishapes = .ok known' →
      (∀ inputName cshape observed e d w, (inputName, cshape) ∈ ishapes →
        alookup modelInputs inputName = some observed →
        (e, d) ∈ cshape.zip observed → dimBinding e d = some (s, w) → w = v) →
      ((∃ inputName cshape observed e d, (inputName, cshape) ∈ ishapes ∧
          alookup modelInputs inputName = some observed ∧
          (e, d) ∈ cshape.zip observed ∧ dimBinding e d = some (s, v)) →
        alookup known' s = some v) ∧
      ((∀ inputName cshape observed e d w, (inputName, cshape) ∈ ishapes →
          alookup modelInputs inputName = some observed →
          (e, d) ∈ cshape.zip observed → dimBinding e d = some w → w.1 ≠ s) →
        alookup known' s = alookup known s) := by
  intro ishapes
  induction ishapes with
  | nil =>
    intro known known' h _
    simp [bindInputs] at h
    subst h
    exact ⟨by simp, fun _ => rfl⟩
  | cons p rest ih =>
    obtain ⟨n₀, cs₀⟩ := p
    intro known known' h hagree
    rw [bindInputs] at h
    cases hlk : alookup modelInputs n₀ with
    | none => rw [hlk] at h; exact absurd h (by simp)
    | some obs₀ =>
      rw [hlk] at h
      simp only [] at h
      cases hbd : bindDims n₀ known (cs₀.zip obs₀) with
      | error err => rw [hbd] at h; exact absurd h (by simp)
      | ok known₁ =>
        rw [hbd] at h
        simp only [] at h
        have hagree₀ : ∀ e d w, (e, d) ∈ cs₀.zip obs₀ → dimBinding e d = some (s, w) → w = v :=
          fun e d w hm => hagree n₀ cs₀ obs₀ e d w (List.mem_cons_self _ _) hlk hm
        have hdl := bindDims_lookup n₀ s v (cs₀.zip obs₀) known known₁ hbd hagree₀
        have hagree' : ∀ inputName cshape observed e d w, (inputName, cshape) ∈ rest →
            alookup modelInputs inputName = some observed →
            (e, d) ∈ cshape.zip observed → dimBinding e d = some (s, w) → w = v :=
          fun n c o e d w hm => hagree n c o e d w (List.mem_cons_of_mem _ hm)
        have ihr := ih known₁ known' h hagree'
        constructor
        · rintro ⟨n, c, o, e, d, hmem, hlko, hz, hbind⟩
          rcases List.mem_cons.mp hmem with heq | hmem'
          · rw [show n = n₀ from congrArg Prod.fst heq] at hlko
            rw [show c = cs₀ from congrArg Prod.snd heq] at hz
            rw [hlk] at hlko
            have ho : o = obs₀ := by injection hlko with h₀; exact h₀.symm
            rw [ho] at hz
            have hk₁ : alookup known₁ s = some v := hdl.1 ⟨e, d, hz, hbind⟩
            by_cases hrest : ∃ inputName cshape observed e d,
                (inputName, cshape) ∈ rest ∧ alookup modelInputs inputName = some observed ∧
                (e, d) ∈ cshape.zip observed ∧ dimBinding e d = some (s, v)
            · exact ihr.1 hrest
            · have hnw : ∀ inputName cshape observed e d w₀, (inputName, cshape) ∈ rest →
                  alookup modelInputs inputName = some observed →
                  (e, d) ∈ cshape.zip observed → dimBinding e d = some w₀ → w₀.1 ≠ s := by
                intro n' c' o' e' d' w₀ hm' hlk' hz' hb' hws
                apply hrest
                obtain ⟨w₁, w₂⟩ := w₀
                simp only [] at hws
                rw [hws] at hb'
                have := hagree' n' c' o' e' d' w₂ hm' hlk' hz' hb'
                rw [this] at hb'
                exact ⟨n', c', o', e', d', hm', hlk', hz', hb'⟩
              rw [ihr.2 hnw]
              exact hk₁
          · exact ihr.1 ⟨n, c, o, e, d, hmem', hlko, hz, hbind⟩
        · intro hnw
          have hnw₀ : ∀ e d w₀, (e, d) ∈ cs₀.zip obs₀ → dimBinding e d = some w₀ → w₀.1 ≠ s :=
            fun e d w₀ hm => hnw n₀ cs₀ obs₀ e d w₀ (List.mem_cons_self _ _) hlk hm
          rw [ihr.2 (fun n c o e d w₀ hm => hnw n c o e d w₀ (List.mem_cons_of_mem _ hm))]
          exact hdl.2 hnw₀

theorem dimBinding_sym (s : String) (d : Int) : dimBinding (Dim.sym s) d = some (s, d) := by
  have hfs : (Dim.sym s).freeSymbols = [s] := by
    simp [Dim.freeSymbols, Dim.symOccs]
  simp [dimBinding, hfs]

/-- Successful shape resolution: every output appears in the result, substituted
with the derived symbol table. -/
theorem getOutputShapes_ok {part : ORTPipelinePart} {modelInputs : List (String × List Int)}
    {res : List (String × List Dim)} (h : getOutputShapes part modelInputs = .ok res) :
    ∃ known, bindInputs part.knownSymbols modelInputs part.compiledInputShapes = .ok known ∧
      res = part.compiledOutputShapes.map (fun p => (p.1, p.2.map (subsDim known))) := by
  unfold getOutputShapes at h
  cases hbi : bindInputs part.knownSymbols modelInputs part.compiledInputShapes with
  | error err => rw [hbi] at h; exact absurd h (by simp)
  | ok known =>
    rw [hbi] at h
    simp only [] at h
    refine ⟨known, rfl, ?_⟩
    by_cases hemp : (List.filter (fun p => p.2.any (fun e => !e.freeSymbols.isEmpty))
        (part.compiledOutputShapes.map (fun p => (p.1, p.2.map (subsDim known))))).isEmpty = true
    · rw [if_pos hemp] at h
      have hall : ∀ p ∈ part.compiledOutputShapes.map
          (fun p => (p.1, p.2.map (subsDim known))),
          (!p.2.any (fun e => !e.freeSymbols.isEmpty)) = true := by
        intro p hp
        have hnil := List.isEmpty_iff.mp hemp
        by_contra hbad
        have : p ∈ List.filter (fun p => p.2.any (fun e => !e.freeSymbols.isEmpty))
            (part.compiledOutputShapes.map (fun p => (p.1, p.2.map (subsDim known)))) := by
          rw [List.mem_filter]
          exact ⟨hp, by revert hbad; cases p.2.any (fun e => !e.freeSymbols.isEmpty) <;> simp⟩
        rw [hnil] at this
        exact absurd this (List.not_mem_nil p)
      rw [List.filter_eq_self.mpr hall] at h
      injection h with h₀
      exact h₀.symm
    · rw [if_neg hemp] at h
      exact absurd h (by simp)

/-- C1: for an input dimension compiled to the single-symbol linear formula
`2*n`, with `n` the output dimension: resolving with observed value 8 succeeds
binding `n := 4`; the claim further states that an observed value with no
integer solution — e.g. 7 — raises `UnresolvableDimension`.  This closed
computation refutes that: at observed value 7 the call RETURNS successfully,
because `sp.solve(2*n - 7, n)` yields the rational `7/2`, a non-empty solution
list, and `int(7/2)` binds `n := 3`; no error is raised. -/
def c1Part : ORTPipelinePart :=
  { className := "ORTModelUnet"
    knownSymbols := []
    inputNames := ["x"]
    outputNames := ["out"]
    inputDtypes := [("x", "tensor(float)")]
    compiledInputShapes := [("x", [Dim.mul (Dim.const 2) (Dim.sym "n")])]
    compiledOutputShapes := [("out", [Dim.sym "n"])]
    useIoBinding := false }

/-- C1, counterexample: with the compiled input dimension `2*n` and observed
dimension 7 — for which `2*n - 7 = 0` has no integer solution — the resolution
call does NOT raise `UnresolvableDimension`: it succeeds, binding `n` to
`int(7/2) = 3` and returning output shape `(3,)`. -/
theorem c1_counterexample :
    getOutputShapes c1Part [("x", [7])] = .ok [("out", [Dim.const 3])] := rfl

/-- C1, amended: for the single-symbol linear formula `2*n` on an input
dimension observed as `d`, the solver always binds `n` to the truncated
rational solution `int(d / 2)` and returns successfully — `d = 8` binds 4 (as
the claim states), but `d = 7` binds 3 instead of raising; the
`UnresolvableDimension` failure fires only when the symbolic solver returns an
empty solution list, which cannot happen for a linear formula. -/
theorem c1_amended (d : Int) :
    getOutputShapes c1Part [("x", [d])] = .ok [("out", [Dim.const (Int.tdiv d 2)])] := by
  have h : getOutputShapes c1Part [("x", [d])] =
      .ok [("out", [Dim.const (Int.tdiv (d - 0) 2)])] := rfl
  rw [h, sub_zero]

/-- C2: for a subnetwork whose declared output shape has, at some dimension
index, a bare symbol `s` that is also bound as a bare-symbol input dimension
with observed value `v` (all input dimensions that bind `s` agreeing on `v`),
a successful `_get_output_shapes` call returns exactly `v` at that output
dimension. -/
theorem c2_bare_symbol_output (part : ORTPipelinePart) (modelInputs : List (String × List Int))
    (s : String) (v : Int) (o : String) (oshape : List Dim) (j : Nat)
    (res : List (String × List Dim))
    (hagree : ∀ inputName cshape observed e d w, (inputName, cshape) ∈ part.compiledInputShapes →
      alookup modelInputs inputName = some observed →
      (e, d) ∈ cshape.zip observed → dimBinding e d = some (s, w) → w = v)
    (hbind : ∃ inputName cshape observed, (inputName, cshape) ∈ part.compiledInputShapes ∧
      alookup modelInputs inputName = some observed ∧ (Dim.sym s, v) ∈ cshape.zip observed)
    (hok : getOutputShapes part modelInputs = .ok res)
    (hout : (o, oshape) ∈ part.compiledOutputShapes)
    (hj : oshape[j]? = some (Dim.sym s)) :
    ∃ rshape, (o, rshape) ∈ res ∧ rshape[j]? = some (Dim.const v) := by
  obtain ⟨known, hbi, hres⟩ := getOutputShapes_ok hok
  obtain ⟨inputName, cshape, observed, hmem, hlko, hz⟩ := hbind
  have hlk : alookup known s = some v :=
    (bindInputs_lookup s v modelInputs part.compiledInputShapes part.knownSymbols known
        hbi hagree).1
      ⟨inputName, cshape, observed, Dim.sym s, v, hmem, hlko, hz, dimBinding_sym s v⟩
  refine ⟨oshape.map (subsDim known), ?_, ?_⟩
  · rw [hres]
    exact List.mem_map_of_mem (fun p => (p.1, p.2.map (subsDim known))) hout
  · rw [List.getElem?_map, hj]
    simp [subsDim, hlk]

/-- C2, witness part: a subnetwork whose input `x` declares the bare-symbol
shape `(batch,)` and whose output `y` declares the same bare symbol. -/
def c2Part : ORTPipelinePart :=
  { className := "ORTModelVaeDecoder"
    knownSymbols := []
    inputNames := ["x"]
    outputNames := ["y"]
    inputDtypes := [("x", "tensor(float)")]
    compiledInputShapes := [("x", [Dim.sym "batch"])]
    compiledOutputShapes := [("y", [Dim.sym "batch"])]
    useIoBinding := false }

/-- C2, witness: with input `x` observed as `(5,)`, the output `y` resolves to
`(5,)` — the observed input value, exactly. -/
theorem c2_bare_symbol_output_witness :
    ∃ rshape, ("y", rshape) ∈ [("y", [Dim.const (5 : Int)])] ∧
      rshape[0]? = some (Dim.const 5) := by
  refine c2_bare_symbol_output c2Part [("x", [5])] "batch" 5 "y" [Dim.sym "batch"] 0
    [("y", [Dim.const 5])] ?_ ?_ rfl ?_ rfl
  · intro inputName cshape observed e d w h₁ h₂ h₃ h₄
    simp only [c2Part, List.mem_singleton] at h₁
    rw [show inputName = "x" from congrArg Prod.fst h₁] at h₂
    rw [show cshape = [Dim.sym "batch"] from congrArg Prod.snd h₁] at h₃
    have hobs : observed = [5] := by
      rw [show alookup [("x", [(5 : Int)])] "x" = some [5] from rfl] at h₂
      injection h₂ with h₂'
      exact h₂'.symm
    rw [hobs] at h₃
    simp only [List.zip_cons_cons, List.zip_nil_right, List.mem_singleton] at h₃
    rw [show e = Dim.sym "batch" from congrArg Prod.fst h₃,
       show d = (5 : Int) from congrArg Prod.snd h₃, dimBinding_sym] at h₄
    injection h₄ with h₄'
    exact (congrArg Prod.snd h₄').symm
  · exact ⟨"x", [Dim.sym "batch"], [5], by simp [c2Part], rfl, by simp⟩
  · simp [c2Part]

/-- C3: if, after a successful phase 1, some output dimension still contains a
free symbol not bound in the symbol table, `_get_output_shapes` raises the
`UnresolvedOutputShape` error naming the subnetwork class and carrying the
unresolved outputs (the offending output among them), and returns no concrete
output shapes for that call. -/
theorem c3_unresolved_output (part : ORTPipelinePart) (modelInputs : List (String × List Int))
    (known : List (String × Int)) (o : String) (oshape : List Dim) (e : Dim) (s : String)
    (hbi : bindInputs part.knownSymbols modelInputs part.compiledInputShapes = .ok known)
    (hout : (o, oshape) ∈ part.compiledOutputShapes)
    (he : e ∈ oshape) (hs : s ∈ e.freeSymbols) (hn : alookup known s = none) :
    ∃ unresolved, getOutputShapes part modelInputs =
        .error (.unresolvedOutputShape part.className unresolved) ∧
      o ∈ unresolved.map Prod.fst := by
  have hbadmem : (o, oshape.map (subsDim known)) ∈
      List.filter (fun p => p.2.any (fun e => !e.freeSymbols.isEmpty))
        (part.compiledOutputShapes.map (fun p => (p.1, p.2.map (subsDim known)))) := by
    rw [List.mem_filter]
    refine ⟨List.mem_map_of_mem _ hout, ?_⟩
    rw [List.any_eq_true]
    refine ⟨subsDim known e, List.mem_map_of_mem _ he, ?_⟩
    have : s ∈ (subsDim known e).freeSymbols := (mem_freeSymbols_subsDim known e s).mpr ⟨hs, hn⟩
    cases hfe : (subsDim known e).freeSymbols with
    | nil => rw [hfe] at this; exact absurd this (List.not_mem_nil s)
    | cons a l => simp [hfe]
  have hne : (List.filter (fun p => p.2.any (fun e => !e.freeSymbols.isEmpty))
      (part.compiledOutputShapes.map (fun p => (p.1, p.2.map (subsDim known))))).isEmpty ≠ true := by
    intro hemp
    rw [List.isEmpty_iff.mp hemp] at hbadmem
    exact absurd hbadmem (List.not_mem_nil _)
  refine ⟨List.filter (fun p => p.2.any (fun e => !e.freeSymbols.isEmpty))
      (part.compiledOutputShapes.map (fun p => (p.1, p.2.map (subsDim known)))), ?_, ?_⟩
  · simp only [getOutputShapes, hbi]
    rw [if_neg hne]
  · exact List.mem_map_of_mem Prod.fst hbadmem

/-- C3, witness part: output `y` declares a symbol `extra` never bound by any
input or configuration value. -/
def c3Part : ORTPipelinePart :=
  { className := "ORTModelTextEncoder"
    knownSymbols := []
    inputNames := ["input_ids"]
    outputNames := ["y"]
    inputDtypes := [("input_ids", "tensor(int64)")]
    compiledInputShapes := [("input_ids", [Dim.sym "batch"])]
    compiledOutputShapes := [("y", [Dim.sym "extra"])]
    useIoBinding := false }

/-- C3, witness: resolving `c3Part` with input `(2,)` raises
`UnresolvedOutputShape` naming the class and the output `y`. -/
theorem c3_unresolved_output_witness :
    ∃ unresolved, getOutputShapes c3Part [("input_ids", [2])] =
        .error (.unresolvedOutputShape c3Part.className unresolved) ∧
      "y" ∈ unresolved.map Prod.fst := by
  refine c3_unresolved_output c3Part [("input_ids", [2])] [("batch", 2)] "y" [Dim.sym "extra"]
    (Dim.sym "extra") "extra" rfl (by simp [c3Part]) (by simp) ?_ rfl
  have : (Dim.sym "extra").freeSymbols = ["extra"] := by
    simp [Dim.freeSymbols, Dim.symOccs]
  simp [this]

/-! ### Cross-component attribute validation (`ORTDiffusionPipeline`)

`self.components` is the insertion-ordered dict of the PRESENT components (the
non-`None` ones among vae, unet, text_encoder, text_encoder_2, safety_checker,
image_encoder).  A component is modelled by its attribute surface: the mapping
that `getattr` reads and `hasattr` tests. -/

/-- A Python attribute value together with enough structure to give its `str()`
rendering: devices, dtypes, provider strings, provider-option dicts (which are
unhashable — hence the stringification in the source), and booleans. -/
inductive PyVal where
  | int (n : Int)
  | bool (b : Bool)
  | str (s : String)
  | device (ty : String) (index : Option Int)
  | strList (elems : List String)
  | strDict (entries : List (String × String))
deriving DecidableEq, Repr

/-- Python `str()` on an attribute value. -/
def pyStr : PyVal → String
  | .int n => toString n
  | .bool b => if b then "True" else "False"
  | .str s => s
  | .device ty none => ty
  | .device ty (some i) => ty ++ ":" ++ toString i
  | .strList elems => "[" ++ String.intercalate ", " elems ++ "]"
  | .strDict entries =>
    "\x7b" ++ String.intercalate ", " (entries.map (fun p => p.1 ++ ": " ++ p.2)) ++ "\x7d"

/-- A present pipeline component, as its attribute surface. -/
structure Component where
  attrs : List (String × PyVal)
deriving DecidableEq, Repr

/-- The two `ValueError`s of `_validate_same_attribute_value_across_components`
(lines 193-197), carrying the data interpolated into the messages. -/
inductive ConfigError where
  | attributeNotDefined (attr : String)
  | attributeNotSame (attr : String) (values : List (String × PyVal))
deriving DecidableEq, Repr

/-- The `attribute_values` dict of lines 187-191: the attribute collected from
every present component that exposes it. -/
def collectAttributeValues (components : List (String × Component)) (attr : String) :
    List (String × PyVal) :=
  components.filterMap (fun p => (alookup p.2.attrs attr).map (fun v => (p.1, v)))

/-- Embedding of `ORTDiffusionPipeline._validate_same_attribute_value_across_components`
(lines 183-199): error when no component exposes the attribute, error when the
stringified values are not all equal (`len(set(map(str, ...))) > 1`), else
return the first collected value. -/
def validateSameAttributeValueAcrossComponents (components : List (String × Component))
    (attr : String) : Except ConfigError PyVal :=
  match collectAttributeValues components attr with
  | [] => .error (.attributeNotDefined attr)
  | (n₀, v₀) :: rest =>
    if 1 < (((n₀, v₀) :: rest).map (fun p => pyStr p.2)).dedup.length then
      .error (.attributeNotSame attr ((n₀, v₀) :: rest))
    else .ok v₀

/-- The `use_io_binding` setter of `ORTDiffusionPipeline` (lines 229-233): set
the flag on every present component that has the attribute; leave the others
untouched. -/
def setUseIoBinding (components : List (String × Component)) (value : PyVal) :
    List (String × Component) :=
  components.map (fun p =>
    if (alookup p.2.attrs "use_io_binding").isSome then
      (p.1, ⟨ainsert p.2.attrs "use_io_binding" value⟩)
    else p)

theorem one_lt_dedup_length {l : List String} {s₁ s₂ : String}
    (h₁ : s₁ ∈ l) (h₂ : s₂ ∈ l) (hne : s₁ ≠ s₂) : 1 < l.dedup.length := by
  have m₁ : s₁ ∈ l.dedup := List.mem_dedup.mpr h₁
  have m₂ : s₂ ∈ l.dedup := List.mem_dedup.mpr h₂
  cases hd : l.dedup with
  | nil => rw [hd] at m₁; exact absurd m₁ (List.not_mem_nil _)
  | cons a t =>
    cases t with
    | nil =>
      rw [hd] at m₁ m₂
      simp at m₁ m₂
      rw [m₁, m₂] at hne
      exact absurd rfl hne
    | cons b t' => simp [hd]

theorem dedup_length_le_one_of_all_eq {l : List String} {c : String}
    (h : ∀ x ∈ l, x = c) : ¬1 < l.dedup.length := by
  induction l with
  | nil => simp
  | cons a t ih =>
    have ha : a = c := h a (List.mem_cons_self a t)
    have ht : ∀ x ∈ t, x = c := fun x hx => h x (List.mem_cons_of_mem _ hx)
    by_cases hmem : a ∈ t
    · rw [List.dedup_cons_of_mem hmem]
      exact ih ht
    · rw [List.dedup_cons_of_not_mem hmem]
      cases t with
      | nil => simp
      | cons b t' =>
        have hab : a = b := ha.trans (ht b (List.mem_cons_self b t')).symm
        exact absurd (hab ▸ List.mem_cons_self b t') hmem

/-- C5: for a cross-cutting attribute requested from the pipeline assembly:
(1) if no present component exposes it, a configuration error is raised;
(2) if two collected values disagree after stringification, a configuration
error is raised (so the accessor never picks a majority or first value among
disagreeing components); (3) if all collected values agree after
stringification, the accessor returns the first collected value — the single
shared value. -/
theorem c5_cross_attribute (components : List (String × Component)) (attr n₀ : String)
    (v₀ : PyVal) (rest : List (String × PyVal)) :
    (collectAttributeValues components attr = [] →
      validateSameAttributeValueAcrossComponents components attr =
        .error (.attributeNotDefined attr)) ∧
    (∀ n₁ v₁ n₂ v₂, (n₁, v₁) ∈ collectAttributeValues components attr →
      (n₂, v₂) ∈ collectAttributeValues components attr → pyStr v₁ ≠ pyStr v₂ →
      validateSameAttributeValueAcrossComponents components attr =
        .error (.attributeNotSame attr (collectAttributeValues components attr))) ∧
    (collectAttributeValues components attr = (n₀, v₀) :: rest →
      (∀ n v, (n, v) ∈ collectAttributeValues components attr → pyStr v = pyStr v₀) →
      validateSameAttributeValueAcrossComponents components attr = .ok v₀) := by
  refine ⟨?_, ?_, ?_⟩
  · intro hnil
    simp only [validateSameAttributeValueAcrossComponents, hnil]
  · intro n₁ v₁ n₂ v₂ h₁ h₂ hne
    cases hc : collectAttributeValues components attr with
    | nil => rw [hc] at h₁; exact absurd h₁ (List.not_mem_nil _)
    | cons p t =>
      obtain ⟨m₀, w₀⟩ := p
      rw [hc] at h₁ h₂
      have hm₁ : pyStr v₁ ∈ ((m₀, w₀) :: t).map (fun p => pyStr p.2) :=
        List.mem_map_of_mem (fun p => pyStr p.2) h₁
      have hm₂ : pyStr v₂ ∈ ((m₀, w₀) :: t).map (fun p => pyStr p.2) :=
        List.mem_map_of_mem (fun p => pyStr p.2) h₂
      have hlen := one_lt_dedup_length hm₁ hm₂ hne
      simp only [validateSameAttributeValueAcrossComponents, hc, if_pos hlen]
  · intro hc hall
    have hub : ¬1 < (((n₀, v₀) :: rest).map (fun p => pyStr p.2)).dedup.length := by
      refine dedup_length_le_one_of_all_eq (c := pyStr v₀) ?_
      intro x hx
      obtain ⟨p, hp, hpx⟩ := List.mem_map.mp hx
      rw [← hpx]
      exact hall p.1 p.2 (by rw [hc]; exact hp)
    simp only [validateSameAttributeValueAcrossComponents, hc, if_neg hub]

/-- C5, witness components: unet and vae_decoder agree on the device;
safety_checker does not expose it. -/
def c5Components : List (String × Component) :=
  [("unet", ⟨[("device", PyVal.device "cuda" (some 0)), ("use_io_binding", PyVal.bool true)]⟩),
   ("vae_decoder", ⟨[("device", PyVal.device "cuda" (some 0))]⟩),
   ("safety_checker", ⟨[]⟩)]

/-- C5, witness: with all exposing components agreeing, the accessor returns
that shared device value. -/
theorem c5_cross_attribute_witness :
    validateSameAttributeValueAcrossComponents c5Components "device" =
      .ok (PyVal.device "cuda" (some 0)) := by
  refine (c5_cross_attribute c5Components "device" "unet" (PyVal.device "cuda" (some 0))
    [("vae_decoder", PyVal.device "cuda" (some 0))]).2.2 rfl ?_
  intro n v h
  have hc : collectAttributeValues c5Components "device" =
      [("unet", PyVal.device "cuda" (some 0)), ("vae_decoder", PyVal.device "cuda" (some 0))] :=
    rfl
  rw [hc] at h
  rcases List.mem_cons.mp h with h' | h'
  · rw [show v = PyVal.device "cuda" (some 0) from congrArg Prod.snd h']
  · rcases List.mem_cons.mp h' with h'' | h''
    · rw [show v = PyVal.device "cuda" (some 0) from congrArg Prod.snd h'']
    · exact absurd h'' (List.not_mem_nil _)

/-- C6: setting the managed-buffer flag on the assembly sets `use_io_binding`
on every present component that exposes that attribute (leaving every other
attribute of that component unchanged), and leaves every component that does
not expose it entirely unchanged. -/
theorem c6_set_io_binding (components : List (String × Component)) (value : PyVal)
    (i : Nat) (n : String) (c : Component)
    (h : components[i]? = some (n, c)) :
    ∃ c', (setUseIoBinding components value)[i]? = some (n, c') ∧
      ((alookup c.attrs "use_io_binding").isSome = true →
        alookup c'.attrs "use_io_binding" = some value ∧
        ∀ a, a ≠ "use_io_binding" → alookup c'.attrs a = alookup c.attrs a) ∧
      ((alookup c.attrs "use_io_binding").isSome = false → c' = c) := by
  by_cases hexp : (alookup c.attrs "use_io_binding").isSome = true
  · refine ⟨⟨ainsert c.attrs "use_io_binding" value⟩, ?_, ?_, ?_⟩
    · rw [setUseIoBinding, List.getElem?_map, h]
      simp only [Option.map_some']
      rw [if_pos hexp]
    · intro _
      refine ⟨alookup_ainsert_self c.attrs "use_io_binding" value, ?_⟩
      intro a ha
      exact alookup_ainsert_ne c.attrs "use_io_binding" a value (Ne.symm ha)
    · intro hfalse
      rw [hexp] at hfalse
      exact absurd hfalse (by simp)
  · refine ⟨c, ?_, fun htrue => absurd htrue hexp, fun _ => rfl⟩
    rw [setUseIoBinding, List.getElem?_map, h]
    simp only [Option.map_some']
    rw [if_neg hexp]

/-- C6, witness: on `c5Components`, setting the flag to `False` updates the
unet (which exposes `use_io_binding`) and leaves the vae_decoder unchanged. -/
theorem c6_set_io_binding_witness :
    ∃ c', (setUseIoBinding c5Components (PyVal.bool false))[0]? =
        some ("unet", c') ∧
      ((alookup (Component.mk [("device", PyVal.device "cuda" (some 0)),
          ("use_io_binding", PyVal.bool true)]).attrs "use_io_binding").isSome = true →
        alookup c'.attrs "use_io_binding" = some (PyVal.bool false) ∧
        ∀ a, a ≠ "use_io_binding" → alookup c'.attrs a =
          alookup (Component.mk [("device", PyVal.device "cuda" (some 0)),
            ("use_io_binding", PyVal.bool true)]).attrs a) ∧
      ((alookup (Component.mk [("device", PyVal.device "cuda" (some 0)),
          ("use_io_binding", PyVal.bool true)]).attrs "use_io_binding").isSome = false →
        c' = Component.mk [("device", PyVal.device "cuda" (some 0)),
          ("use_io_binding", PyVal.bool true)]) :=
  c6_set_io_binding c5Components (PyVal.bool false) 0 "unet"
    ⟨[("device", PyVal.device "cuda" (some 0)), ("use_io_binding", PyVal.bool true)]⟩ rfl

/-! ### Tensors and Python exceptions -/

/-- A tensor: shape plus payload, enough structure for the forward-path
claims. -/
structure Tensor where
  shape : List Int
  data : List Int
deriving DecidableEq, Repr

/-- torch `Tensor.unsqueeze(0)`: prepend a size-1 axis. -/
def Tensor.unsqueeze0 (t : Tensor) : Tensor := { t with shape := 1 :: t.shape }

/-- The Python exception kinds raised by the embedded code paths. -/
inductive PyError where
  | keyError (key : String)
  | valueError (msg : String)
  | typeError (msg : String)
  | notImplementedError (msg : String)
deriving DecidableEq, Repr

/-! ### `ORTWrapperVae` (claim C7) -/

/-- The `ORTWrapperVae` facade over the optional encoder and decoder wrappers.
The callable wrappers are abstracted as functions from the sample tensor to
the named output tensors. -/
structure ORTWrapperVae where
  encoder : Option (Tensor → List (String × Tensor))
  decoder : Option (Tensor → List (String × Tensor))

/-- Embedding of `ORTWrapperVae.encode` (lines 889-890): `return self.encoder(*args,
**kwargs)`.  When the encoder component is absent, `self.encoder` is `None`
and calling it raises `TypeError` ("NoneType object is not callable";
Python's quoting of NoneType is elided from the message string). -/
def ORTWrapperVae.encode (w : ORTWrapperVae) (sample : Tensor) :
    Except PyError (List (String × Tensor)) :=
  match w.encoder with
  | none => .error (.typeError "NoneType object is not callable")
  | some f => .ok (f sample)

/-- Boolean test that `pat` starts `l`. -/
def prefixOfChars : List Char → List Char → Bool
  | [], _ => true
  | _ :: _, [] => false
  | c :: cs, d :: ds => c = d && prefixOfChars cs ds

/-- Boolean test that `pat` occurs contiguously in `l`. -/
def containsChars (pat : List Char) : List Char → Bool
  | [] => prefixOfChars pat []
  | c :: cs => prefixOfChars pat (c :: cs) || containsChars pat cs

/-- Boolean substring test on strings. -/
def strContainsSub (msg pat : String) : Bool := containsChars pat.toList msg.toList

/-- Modelled from the spec: an error message "identifying the unsupported
operation (encoding through an assembly with no image encoder)" must at least
mention the encode operation or the encoder; tested as containing the stem
"encod". -/
def mentionsEncodeOperation (msg : String) : Bool := strContainsSub msg "encod"

/-- C7, concrete VAE composite with the image encoder absent. -/
def c7Vae : ORTWrapperVae :=
  { encoder := none, decoder := some (fun t => [("sample", t)]) }

/-- C7, counterexample: calling encode on a VAE composite with no image encoder
does raise a fatal error at the point of the call, but it is the generic
not-callable `TypeError`, whose message does not identify the unsupported
encode operation — refuting the claim's "with a message identifying the
unsupported operation". -/
theorem c7_counterexample :
    ORTWrapperVae.encode c7Vae ⟨[1, 3, 512, 512], []⟩ =
      .error (.typeError "NoneType object is not callable") ∧
    mentionsEncodeOperation "NoneType object is not callable" = false :=
  ⟨rfl, by decide⟩

/-- C7, amended: calling encode on a VAE composite whose image encoder is
absent raises a fatal error at the point of the call — the generic Python
`TypeError` from calling `None` — whose message does not name the unsupported
encode operation. -/
theorem c7_amended (w : ORTWrapperVae) (sample : Tensor) (h : w.encoder = none) :
    ORTWrapperVae.encode w sample = .error (.typeError "NoneType object is not callable") ∧
    mentionsEncodeOperation "NoneType object is not callable" = false := by
  constructor
  · unfold ORTWrapperVae.encode
    rw [h]
  · decide

/-- C7, witness: the amended statement at the concrete encoder-less VAE. -/
theorem c7_amended_witness :
    c7Vae.encoder = none ∧
    (ORTWrapperVae.encode c7Vae ⟨[1], []⟩ =
        .error (.typeError "NoneType object is not callable") ∧
      mentionsEncodeOperation "NoneType object is not callable" = false) :=
  ⟨rfl, c7_amended c7Vae ⟨[1], []⟩ rfl⟩

/-! ### `ORTModelUnet.forward` (claims C4 and C8) -/

/-- The fast-path output shapes of `ORTModelUnet.forward` under io binding
(lines 737-740): `output_shape = list(sample.size()); output_shape[1] = 4`,
keyed by `next(iter(self.output_names))`.  The channel dimension is overwritten
with the literal constant 4; the subnetwork's configuration is not consulted.
(For a sample of rank < 2 Python would raise IndexError — `List.set` is the
in-range fragment, and a UNet sample is rank 4; an empty output-name dict would
raise StopIteration, unreachable for a loaded session.) -/
def unetFastOutputShapes (part : ORTPipelinePart) (sample : Tensor) :
    List (String × List Int) :=
  match part.outputNames with
  | [] => []
  | o :: _ => [(o, sample.shape.set 1 4)]

/-- The output-shape source of `_prepare_io_binding` (lines 640-643): when the
caller passes `output_shapes`, the general solver `_get_output_shapes` is NOT
invoked; when it passes `None`, the solver runs.  (Python uses the passed
concrete integer tuples directly; they are injected as `Dim` constants to share
the solver's result type.) -/
def ioBindingOutputShapes (part : ORTPipelinePart) (modelInputs : List (String × List Int)) :
    Option (List (String × List Int)) → Except ShapeError (List (String × List Dim))
  | some shapes => .ok (shapes.map (fun p => (p.1, p.2.map Dim.const)))
  | none => getOutputShapes part modelInputs

/-- The output shapes actually used by the io-binding branch of
`ORTModelUnet.forward` (lines 736-741): the fast-path shapes are handed to
`_prepare_io_binding`, so the `None` branch — the general solver — is never
taken. -/
def unetIoBindingShapes (part : ORTPipelinePart) (modelInputs : List (String × List Int))
    (sample : Tensor) : Except ShapeError (List (String × List Dim)) :=
  ioBindingOutputShapes part modelInputs (some (unetFastOutputShapes part sample))

/-- Modelled from the spec: "the subnetwork's fixed latent-channel count" — the
latent channel count recorded among the subnetwork's integer configuration
fields (the noise predictor's `out_channels`), which seed `_known_symbols`. -/
def specLatentChannelCount (part : ORTPipelinePart) : Option Int :=
  alookup part.knownSymbols "out_channels"

/-- C4, concrete noise predictor whose configured latent-channel count is 16
(not 4), with io binding enabled. -/
def c4Part : ORTPipelinePart :=
  { className := "ORTModelUnet"
    knownSymbols := [("in_channels", 16), ("out_channels", 16)]
    inputNames := ["sample", "timestep", "encoder_hidden_states"]
    outputNames := ["out_sample"]
    inputDtypes := [("sample", "tensor(float)")]
    compiledInputShapes := [("sample", [Dim.sym "batch", Dim.const 16, Dim.sym "h", Dim.sym "w"])]
    compiledOutputShapes :=
      [("out_sample", [Dim.sym "batch", Dim.const 16, Dim.sym "h", Dim.sym "w"])]
    useIoBinding := true }

/-- C4, counterexample: for a noise predictor whose fixed latent-channel count
(configuration `out_channels`) is 16, the io-binding fast path still produces
channel dimension 4 — the literal constant in the source — not 16: the claim's
"replaced by the subnetwork's fixed latent-channel count" is false for this
subnetwork. -/
theorem c4_counterexample :
    specLatentChannelCount c4Part = some 16 ∧
    unetIoBindingShapes c4Part [] ⟨[2, 16, 64, 64], []⟩ =
      .ok [("out_sample", [Dim.const 2, Dim.const 4, Dim.const 64, Dim.const 64])] ∧
    unetIoBindingShapes c4Part [] ⟨[2, 16, 64, 64], []⟩ ≠
      .ok [("out_sample", [Dim.const 2, Dim.const 16, Dim.const 64, Dim.const 64])] := by
  refine ⟨rfl, rfl, ?_⟩
  intro h
  have h4 : ([("out_sample", [Dim.const 2, Dim.const 4, Dim.const 64, Dim.const 64])] :
      List (String × List Dim)) =
      [("out_sample", [Dim.const 2, Dim.const 16, Dim.const 64, Dim.const 64])] := by
    have h₁ : unetIoBindingShapes c4Part [] ⟨[2, 16, 64, 64], []⟩ =
        .ok [("out_sample", [Dim.const 2, Dim.const 4, Dim.const 64, Dim.const 64])] := rfl
    injection h₁.symm.trans h
  simp at h4

/-- C4, amended: under the managed-buffer strategy the noise predictor's single
output shape is computed without invoking the general shape solver — the
equation holds for every part state and every `model_inputs`, including states
on which `_get_output_shapes` would fail — as the sample tensor's shape with
its channel dimension (axis 1) replaced by the literal constant 4 (not by a
configuration-derived latent-channel count). -/
theorem c4_amended (part : ORTPipelinePart) (modelInputs : List (String × List Int))
    (sample : Tensor) (o : String) (rest : List String)
    (h : part.outputNames = o :: rest) :
    unetIoBindingShapes part modelInputs sample =
      .ok [(o, (sample.shape.set 1 4).map Dim.const)] := by
  unfold unetIoBindingShapes ioBindingOutputShapes unetFastOutputShapes
  rw [h]
  simp

/-- C4, witness: the amended statement at `c4Part` with empty `model_inputs` —
a state on which the general solver would fail with a missing-input error, so
the fast path demonstrably bypasses it. -/
theorem c4_amended_witness :
    c4Part.outputNames = "out_sample" :: [] ∧
    getOutputShapes c4Part [] = .error (.missingInput "sample") ∧
    unetIoBindingShapes c4Part [] ⟨[2, 16, 64, 64], []⟩ =
      .ok [("out_sample", (([2, 16, 64, 64] : List Int).set 1 4).map Dim.const)] :=
  ⟨rfl, rfl, c4_amended c4Part [] ⟨[2, 16, 64, 64], []⟩ "out_sample" [] rfl⟩

/-- The `model_inputs` dict assembled by `ORTModelUnet.forward` (lines
725-734): the named inputs (optional ones possibly `None`), then the
`**(cross_attention_kwargs or {})` and `**(added_cond_kwargs or {})` dict
merges, later entries overriding earlier ones. -/
def unetModelInputs (sample timestep encoderHiddenStates : Tensor)
    (textEmbeds timeIds timestepCond : Option Tensor)
    (crossAttentionKwargs addedCondKwargs : List (String × Tensor)) :
    List (String × Option Tensor) :=
  let base := [("sample", some sample), ("timestep", some timestep),
    ("encoder_hidden_states", some encoderHiddenStates),
    ("text_embeds", textEmbeds), ("time_ids", timeIds), ("timestep_cond", timestepCond)]
  let m₁ := crossAttentionKwargs.foldl (fun m p => ainsert m p.1 (some p.2)) base
  addedCondKwargs.foldl (fun m p => ainsert m p.1 (some p.2)) m₁

/-- Embedding of `ORTModelUnet.forward` (lines 710-754) with the engine execution
abstracted: a zero-dimensional timestep is promoted via `unsqueeze(0)` (lines
722-723) before the `model_inputs` dict is assembled; then one of the two
execution strategies consumes the assembled inputs.  Both strategies are
deterministic in the strategy flag and the assembled inputs, abstracted
together as `sessionRun`. -/
def unetForward (part : ORTPipelinePart)
    (sessionRun : Bool → List (String × Option Tensor) → List (String × Tensor))
    (sample timestep encoderHiddenStates : Tensor)
    (textEmbeds timeIds timestepCond : Option Tensor)
    (crossAttentionKwargs addedCondKwargs : List (String × Tensor)) :
    List (String × Tensor) :=
  let timestep := if timestep.shape = [] then timestep.unsqueeze0 else timestep
  sessionRun part.useIoBinding
    (unetModelInputs sample timestep encoderHiddenStates textEmbeds timeIds timestepCond
      crossAttentionKwargs addedCondKwargs)

/-- C8: a noise-predictor forward call with a zero-dimensional timestep tensor
produces exactly the same result as the same call with the equivalent
one-element timestep tensor: the scalar is promoted with `unsqueeze(0)` before
anything else depends on it. -/
theorem c8_scalar_timestep (part : ORTPipelinePart)
    (sessionRun : Bool → List (String × Option Tensor) → List (String × Tensor))
    (sample timestep encoderHiddenStates : Tensor)
    (textEmbeds timeIds timestepCond : Option Tensor)
    (crossAttentionKwargs addedCondKwargs : List (String × Tensor))
    (h : timestep.shape = []) :
    unetForward part sessionRun sample timestep encoderHiddenStates textEmbeds timeIds
      timestepCond crossAttentionKwargs addedCondKwargs =
    unetForward part sessionRun sample timestep.unsqueeze0 encoderHiddenStates textEmbeds
      timeIds timestepCond crossAttentionKwargs addedCondKwargs := by
  unfold unetForward
  simp [Tensor.unsqueeze0, h]

/-- C8, witness: a scalar timestep `999` and its one-element promotion give the
same forward result on a concrete part. -/
theorem c8_scalar_timestep_witness :
    (Tensor.mk [] [999]).shape = [] ∧
    unetForward c2Part (fun _ _ => []) ⟨[2, 4, 64, 64], []⟩ (Tensor.mk [] [999])
        ⟨[2, 77, 768], []⟩ none none none [] [] =
      unetForward c2Part (fun _ _ => []) ⟨[2, 4, 64, 64], []⟩ (Tensor.mk [] [999]).unsqueeze0
        ⟨[2, 77, 768], []⟩ none none none [] [] :=
  ⟨rfl, c8_scalar_timestep c2Part (fun _ _ => []) ⟨[2, 4, 64, 64], []⟩ (Tensor.mk [] [999])
    ⟨[2, 77, 768], []⟩ none none none [] [] rfl⟩

/-! ### Host-array input preparation: `_prepare_onnx_inputs` (claims C9, C10)

Arrays carry a buffer identity (`bufId`) so that aliasing between the caller's
tensors and the prepared arrays is expressible; `astype` allocations are
numbered by a counter threaded through the loop.  Element-level numeric
conversion is abstracted as preserving the integer payload. -/

inductive NpDtype where
  | float16
  | float32
  | float64
  | int8
  | int32
  | int64
  | uint8
  | bool
deriving DecidableEq, Repr

inductive TorchDtype where
  | float16
  | float32
  | float64
  | int8
  | int32
  | int64
  | uint8
  | bool
deriving DecidableEq, Repr

/-- The numpy dtype that `torch.Tensor.numpy` yields for each torch dtype. -/
def torchToNpDtype : TorchDtype → NpDtype
  | .float16 => .float16
  | .float32 => .float32
  | .float64 => .float64
  | .int8 => .int8
  | .int32 => .int32
  | .int64 => .int64
  | .uint8 => .uint8
  | .bool => .bool

/-- A numpy array: buffer identity, dtype, shape, abstract payload. -/
structure NpArray where
  bufId : Nat
  dtype : NpDtype
  shape : List Int
  data : List Int
deriving DecidableEq, Repr

/-- A torch tensor as `_prepare_onnx_inputs` may receive it. -/
structure TorchTensor where
  bufId : Nat
  dtype : TorchDtype
  shape : List Int
  data : List Int
deriving DecidableEq, Repr

/-- A value accepted by `_prepare_onnx_inputs`: torch tensor or numpy array. -/
inductive PyTensor where
  | np (a : NpArray)
  | torch (t : TorchTensor)
deriving DecidableEq, Repr

def PyTensor.bufId : PyTensor → Nat
  | .np a => a.bufId
  | .torch t => t.bufId

/-- Model of `torch.Tensor.numpy(force=True)` on a CPU tensor: a view sharing the
tensor's buffer (the worst case for the aliasing claim); a numpy array passes
through unchanged. -/
def toNumpyForce : PyTensor → NpArray
  | .np a => a
  | .torch t =>
    { bufId := t.bufId, dtype := torchToNpDtype t.dtype, shape := t.shape, data := t.data }

/-- The numpy dtype names that `np.dtype(string)` parses (the fragment relevant
here).  ONNX tensor-type strings such as `"tensor(float)"` are not valid numpy
dtype names. -/
def npNameTable : List (String × NpDtype) :=
  [("float16", .float16), ("float32", .float32), ("float64", .float64),
   ("int8", .int8), ("int32", .int32), ("int64", .int64),
   ("uint8", .uint8), ("bool", .bool)]

def parseNpDtypeName (s : String) : Option NpDtype := alookup npNameTable s

/-- numpy `array.dtype == s` for a string `s`: numpy attempts `np.dtype(s)`;
when the string is not a valid dtype name the comparison evaluates to `False`
(numpy swallows the conversion failure — no exception). -/
def npDtypeEqStr (dt : NpDtype) (s : String) : Bool :=
  match parseNpDtypeName s with
  | some dt' => dt = dt'
  | none => false

/-- Model of `TypeHelper.ort_type_to_numpy_type`: the ONNX tensor-type strings reported
by `InferenceSession.get_inputs()[i].type`, mapped to numpy dtypes (raises for
an unknown string). -/
def ortNpTable : List (String × NpDtype) :=
  [("tensor(float16)", .float16), ("tensor(float)", .float32), ("tensor(double)", .float64),
   ("tensor(int8)", .int8), ("tensor(int32)", .int32), ("tensor(int64)", .int64),
   ("tensor(uint8)", .uint8), ("tensor(bool)", .bool)]

def ortTypeToNpDtype (s : String) : Option NpDtype := alookup ortNpTable s

/-- Model of `ndarray.astype(t)` with numpy's default `copy=True`: allocates a fresh
buffer (`freshId`), converts the elements to `t` (abstracted as
payload-preserving), keeps the shape. -/
def npAstype (t : NpDtype) (a : NpArray) (freshId : Nat) : NpArray :=
  { bufId := freshId, dtype := t, shape := a.shape, data := a.data }

/-- The loop of `_prepare_onnx_inputs` (lines 666-675) over the DECLARED input
names: `inputs.pop(input_name)` raises `KeyError` when a declared input was not
provided — a provided name that is not declared is never popped and is silently
ignored; a torch tensor is converted with `numpy(force=True)`; then
`array.dtype != self.input_dtypes[input_name]` compares the numpy dtype with
the declared ONNX type string, and on mismatch the array is re-converted with
`astype(TypeHelper.ort_type_to_numpy_type(...))`, allocating a fresh buffer
(`nextId` numbers the allocations). -/
def prepareOnnxInputsGo (inputDtypes : List (String × String))
    (inputs : List (String × PyTensor)) :
    List String → Nat → Except PyError (List (String × NpArray) × Nat)
  | [], nextId => .ok ([], nextId)
  | name :: rest, nextId =>
    match alookup inputs name with
    | none => .error (.keyError name)
    | some v =>
      let a := toNumpyForce v
      match alookup inputDtypes name with
      | none => .error (.keyError name)
      | some dtStr =>
        if npDtypeEqStr a.dtype dtStr then
          match prepareOnnxInputsGo inputDtypes inputs rest nextId with
          | .ok (l, n') => .ok ((name, a) :: l, n')
          | .error e => .error e
        else
          match ortTypeToNpDtype dtStr with
          | none => .error (.valueError dtStr)
          | some npdt =>
            match prepareOnnxInputsGo inputDtypes inputs rest (nextId + 1) with
            | .ok (l, n') => .ok ((name, npAstype npdt a nextId) :: l, n')
            | .error e => .error e

/-- Embedding of `ORTPipelinePart._prepare_onnx_inputs` (lines 663-677). -/
def prepareOnnxInputs (part : ORTPipelinePart) (inputs : List (String × PyTensor))
    (nextId : Nat) : Except PyError (List (String × NpArray) × Nat) :=
  prepareOnnxInputsGo part.inputDtypes inputs part.inputNames nextId

/-- The prepared-input names of a successful call, `none` on error. -/
def exceptOkKeys : Except PyError (List (String × NpArray) × Nat) → Option (List String)
  | .ok (l, _) => some (l.map Prod.fst)
  | .error _ => none

/-- An ONNX tensor-type string is not a valid numpy dtype name. -/
theorem parseNpDtypeName_ort {s : String} {t : NpDtype}
    (h : ortTypeToNpDtype s = some t) : parseNpDtypeName s = none := by
  have hs := alookup_mem h
  simp only [ortNpTable, List.mem_cons, List.not_mem_nil, or_false, Prod.mk.injEq] at hs
  rcases hs with ⟨rfl, -⟩ | ⟨rfl, -⟩ | ⟨rfl, -⟩ | ⟨rfl, -⟩ |
    ⟨rfl, -⟩ | ⟨rfl, -⟩ | ⟨rfl, -⟩ | ⟨rfl, -⟩ <;> decide

/-- Hence the dtype-mismatch test of line 672 is never an equality when the
declared dtype string is an ONNX tensor-type string. -/
theorem npDtypeEqStr_ort_false {s : String} {t : NpDtype}
    (h : ortTypeToNpDtype s = some t) (dt : NpDtype) : npDtypeEqStr dt s = false := by
  unfold npDtypeEqStr
  rw [parseNpDtypeName_ort h]

/-- Every entry of a successful `_prepare_onnx_inputs` result is the `astype`
re-conversion of the corresponding provided value, freshly allocated at or
after the initial counter. -/
theorem prepareOnnxInputsGo_mem (inputDtypes : List (String × String))
    (inputs : List (String × PyTensor))
    (hwf : ∀ p ∈ inputDtypes, (ortTypeToNpDtype p.2).isSome = true) :
    ∀ (names : List String) (nextId nextId' : Nat) (res : List (String × NpArray)),
      prepareOnnxInputsGo inputDtypes inputs names nextId = .ok (res, nextId') →
      ∀ name a, (name, a) ∈ res →
        ∃ dtStr npdt v fid, alookup inputDtypes name = some dtStr ∧
          ortTypeToNpDtype dtStr = some npdt ∧ alookup inputs name = some v ∧
          nextId ≤ fid ∧ a = npAstype npdt (toNumpyForce v) fid := by
  intro names
  induction names with
  | nil =>
    intro nextId nextId' res h name a hmem
    simp [prepareOnnxInputsGo] at h
    rw [h.1] at hmem
    exact absurd hmem (List.not_mem_nil _)
  | cons n₀ rest ih =>
    intro nextId nextId' res h name a hmem
    rw [prepareOnnxInputsGo] at h
    cases hv : alookup inputs n₀ with
    | none => rw [hv] at h; exact absurd h (by simp)
    | some v₀ =>
      rw [hv] at h
      simp only [] at h
      cases hdt : alookup inputDtypes n₀ with
      | none => rw [hdt] at h; exact absurd h (by simp)
      | some dtStr₀ =>
        rw [hdt] at h
        simp only [] at h
        obtain ⟨npdt₀, hnp₀⟩ :
            ∃ t, ortTypeToNpDtype dtStr₀ = some t := by
          have := hwf (n₀, dtStr₀) (alookup_mem hdt)
          cases hx : ortTypeToNpDtype dtStr₀ with
          | none => rw [hx] at this; exact absurd this (by simp)
          | some t => exact ⟨t, rfl⟩
        rw [npDtypeEqStr_ort_false hnp₀, if_neg (by simp)] at h
        rw [hnp₀] at h
        simp only [] at h
        cases hgo : prepareOnnxInputsGo inputDtypes inputs rest (nextId + 1) with
        | error e => rw [hgo] at h; exact absurd h (by simp)
        | ok p =>
          obtain ⟨l, n'⟩ := p
          rw [hgo] at h
          simp only [] at h
          have hres : res = (n₀, npAstype npdt₀ (toNumpyForce v₀) nextId) :: l := by
            have := congrArg Prod.fst (Except.ok.inj h)
            exact this.symm
          rw [hres] at hmem
          rcases List.mem_cons.mp hmem with heq | hmem'
          · refine ⟨dtStr₀, npdt₀, v₀, nextId, ?_, hnp₀, ?_, Nat.le_refl nextId, ?_⟩
            · rw [show name = n₀ from congrArg Prod.fst heq]
              exact hdt
            · rw [show name = n₀ from congrArg Prod.fst heq]
              exact hv
            · exact congrArg Prod.snd heq
          · obtain ⟨dtStr, npdt, v, fid, h₁, h₂, h₃, h₄, h₅⟩ :=
              ih (nextId + 1) n' l hgo name a hmem'
            exact ⟨dtStr, npdt, v, fid, h₁, h₂, h₃,
              Nat.le_of_succ_le h₄, h₅⟩

/-- C10: in the host-array execution path, for every declared input, the
dtype-mismatch test compares the provided array's numpy dtype against the
declared ONNX type string — never an equality — so the coercion branch runs
unconditionally: every prepared entry is the `astype` conversion of the
provided value into the declared numpy dtype, carried in a freshly allocated
buffer that aliases no caller tensor, even when the caller's dtype already
matched the declared one. -/
theorem c10_unconditional_coercion (part : ORTPipelinePart)
    (inputs : List (String × PyTensor)) (nextId nextId' : Nat)
    (res : List (String × NpArray)) (name : String) (a : NpArray)
    (hwf : ∀ p ∈ part.inputDtypes, (ortTypeToNpDtype p.2).isSome = true)
    (hids : ∀ p ∈ inputs, PyTensor.bufId p.2 < nextId)
    (hok : prepareOnnxInputs part inputs nextId = .ok (res, nextId'))
    (hmem : (name, a) ∈ res) :
    ((alookup part.inputDtypes name).bind ortTypeToNpDtype = some a.dtype) ∧
    ((alookup inputs name).map (fun v => npAstype a.dtype (toNumpyForce v) a.bufId) =
      some a) ∧
    (∀ p ∈ inputs, PyTensor.bufId p.2 ≠ a.bufId) := by
  obtain ⟨dtStr, npdt, v, fid, h₁, h₂, h₃, h₄, h₅⟩ :=
    prepareOnnxInputsGo_mem part.inputDtypes inputs hwf part.inputNames nextId nextId' res
      hok name a hmem
  have hdt : a.dtype = npdt := by rw [h₅]; rfl
  have hid : a.bufId = fid := by rw [h₅]; rfl
  refine ⟨?_, ?_, ?_⟩
  · rw [h₁, hdt]
    exact h₂
  · rw [h₃, hdt, hid]
    simp only [Option.map_some']
    rw [← h₅]
  · intro p hp
    have hlt : PyTensor.bufId p.2 < fid := Nat.lt_of_lt_of_le (hids p hp) h₄
    rw [hid]
    exact Nat.ne_of_lt hlt

/-- C9 and C10 concrete part: a VAE decoder with one declared input. -/
def c9Part : ORTPipelinePart :=
  { className := "ORTModelVaeDecoder"
    knownSymbols := []
    inputNames := ["latent_sample"]
    outputNames := ["sample"]
    inputDtypes := [("latent_sample", "tensor(float)")]
    compiledInputShapes := [("latent_sample", [Dim.sym "batch"])]
    compiledOutputShapes := [("sample", [Dim.sym "batch"])]
    useIoBinding := false }

/-- C10, witness: a caller array whose dtype float32 ALREADY matches the
declared `tensor(float)` is still re-converted into a fresh buffer (id 5, not
the caller's 0), in the declared numpy dtype. -/
theorem c10_unconditional_coercion_witness :
    prepareOnnxInputs c9Part [("latent_sample", .np ⟨0, .float32, [1], [7]⟩)] 5 =
      .ok ([("latent_sample", ⟨5, .float32, [1], [7]⟩)], 6) ∧
    (alookup c9Part.inputDtypes "latent_sample").bind ortTypeToNpDtype =
      some (NpArray.mk 5 .float32 [1] [7]).dtype ∧
    (0 : Nat) ≠ (NpArray.mk 5 .float32 [1] [7]).bufId := by
  have hc := c10_unconditional_coercion c9Part
    [("latent_sample", .np ⟨0, .float32, [1], [7]⟩)] 5 6
    [("latent_sample", ⟨5, .float32, [1], [7]⟩)] "latent_sample" ⟨5, .float32, [1], [7]⟩
    (by
      intro p hp
      simp only [c9Part, List.mem_singleton] at hp
      rw [hp]
      decide)
    (by
      intro p hp
      simp only [List.mem_singleton] at hp
      rw [hp]
      decide)
    rfl (List.mem_singleton.mpr rfl)
  exact ⟨rfl, hc.1, hc.2.2 ("latent_sample", .np ⟨0, .float32, [1], [7]⟩)
    (List.mem_singleton.mpr rfl)⟩

/-- C9, counterexample: supplying the extra input name `mask`, absent from the
declared input set, does NOT make the call fail: `_prepare_onnx_inputs`
iterates over the declared names only, so the unrecognized input is silently
ignored and the call succeeds, returning a prepared mapping whose keys are
exactly the declared names. -/
theorem c9_counterexample :
    "mask" ∉ c9Part.inputNames ∧
    prepareOnnxInputs c9Part
      [("latent_sample", .np ⟨0, .float32, [1, 4, 64, 64], []⟩),
       ("mask", .np ⟨1, .float32, [1, 1, 64, 64], []⟩)] 10 =
      .ok ([("latent_sample", ⟨10, .float32, [1, 4, 64, 64], []⟩)], 11) :=
  ⟨by decide, rfl⟩

/-- Success and failure of the declared-name loop, characterized by the first
declared name with no provided value. -/
theorem prepareOnnxInputsGo_keys (inputDtypes : List (String × String))
    (inputs : List (String × PyTensor))
    (hwf : ∀ p ∈ inputDtypes, (ortTypeToNpDtype p.2).isSome = true) :
    ∀ (names : List String) (nextId : Nat),
      (∀ name ∈ names, (alookup inputDtypes name).isSome = true) →
      ((names.find? (fun n => (alookup inputs n).isNone) = none →
        exceptOkKeys (prepareOnnxInputsGo inputDtypes inputs names nextId) = some names) ∧
      (∀ m, names.find? (fun n => (alookup inputs n).isNone) = some m →
        prepareOnnxInputsGo inputDtypes inputs names nextId = .error (.keyError m))) := by
  intro names
  induction names with
  | nil =>
    intro nextId _
    exact ⟨fun _ => rfl, fun m hm => absurd hm (by simp)⟩
  | cons n₀ rest ih =>
    intro nextId hdts
    cases hv : alookup inputs n₀ with
    | none =>
      have hfind : List.find? (fun n => (alookup inputs n).isNone) (n₀ :: rest) = some n₀ := by
        rw [List.find?_cons_of_pos]
        rw [hv]
        rfl
      constructor
      · intro hnone
        rw [hfind] at hnone
        exact absurd hnone (by simp)
      · intro m hm
        rw [hfind] at hm
        have hmn : m = n₀ := by injection hm with h'; exact h'.symm
        rw [hmn, prepareOnnxInputsGo, hv]
    | some v₀ =>
      have hfind : List.find? (fun n => (alookup inputs n).isNone) (n₀ :: rest) =
          List.find? (fun n => (alookup inputs n).isNone) rest := by
        rw [List.find?_cons_of_neg]
        rw [hv]
        simp
      cases hdt : alookup inputDtypes n₀ with
      | none =>
        have := hdts n₀ (List.mem_cons_self _ _)
        rw [hdt] at this
        exact absurd this (by simp)
      | some dtStr₀ =>
        obtain ⟨npdt₀, hnp₀⟩ : ∃ t, ortTypeToNpDtype dtStr₀ = some t := by
          have := hwf (n₀, dtStr₀) (alookup_mem hdt)
          cases hx : ortTypeToNpDtype dtStr₀ with
          | none => rw [hx] at this; exact absurd this (by simp)
          | some t => exact ⟨t, rfl⟩
        have ihr := ih (nextId + 1) (fun n hn => hdts n (List.mem_cons_of_mem _ hn))
        constructor
        · intro hnone
          rw [hfind] at hnone
          have hkeys := ihr.1 hnone
          rw [prepareOnnxInputsGo, hv]
          simp only []
          rw [hdt]
          simp only []
          rw [npDtypeEqStr_ort_false hnp₀, if_neg (by simp), hnp₀]
          simp only []
          cases hgo : prepareOnnxInputsGo inputDtypes inputs rest (nextId + 1) with
          | error e => rw [hgo] at hkeys; exact absurd hkeys (by simp [exceptOkKeys])
          | ok p =>
            obtain ⟨l, n'⟩ := p
            rw [hgo] at hkeys
            simp only [exceptOkKeys] at hkeys ⊢
            simp only [List.map_cons]
            rw [show l.map Prod.fst = rest from by injection hkeys]
        · intro m hm
          rw [hfind] at hm
          have herr := ihr.2 m hm
          rw [prepareOnnxInputsGo, hv]
          simp only []
          rw [hdt]
          simp only []
          rw [npDtypeEqStr_ort_false hnp₀, if_neg (by simp), hnp₀]
          simp only []
          rw [herr]

/-- C9, amended: in the host-array path, a provided input name absent from the
declared input set is silently ignored — the prepared mapping's keys are
exactly the declared names; the call fails, with `KeyError`, precisely when a
DECLARED input name is absent from the provided inputs (at the first such
name). -/
theorem c9_amended (part : ORTPipelinePart) (inputs : List (String × PyTensor))
    (nextId : Nat)
    (hwf : ∀ p ∈ part.inputDtypes, (ortTypeToNpDtype p.2).isSome = true)
    (hdts : ∀ name ∈ part.inputNames, (alookup part.inputDtypes name).isSome = true) :
    (part.inputNames.find? (fun n => (alookup inputs n).isNone) = none →
      exceptOkKeys (prepareOnnxInputs part inputs nextId) = some part.inputNames) ∧
    (∀ m, part.inputNames.find? (fun n => (alookup inputs n).isNone) = some m →
      prepareOnnxInputs part inputs nextId = .error (.keyError m)) :=
  prepareOnnxInputsGo_keys part.inputDtypes inputs hwf part.inputNames nextId hdts

/-- C9, witness: with every declared input provided (plus an undeclared
extra), the call succeeds and the prepared keys are the declared names; with a
declared input missing, the call fails with a `KeyError` naming it. -/
theorem c9_amended_witness :
    exceptOkKeys (prepareOnnxInputs c9Part
        [("latent_sample", .np ⟨0, .float32, [1], []⟩), ("mask", .np ⟨1, .float32, [1], []⟩)] 5) =
      some c9Part.inputNames ∧
    prepareOnnxInputs c9Part [("mask", .np ⟨1, .float32, [1], []⟩)] 5 =
      .error (.keyError "latent_sample") := by
  have hwf : ∀ p ∈ c9Part.inputDtypes, (ortTypeToNpDtype p.2).isSome = true := by
    intro p hp
    simp only [c9Part, List.mem_singleton] at hp
    rw [hp]
    decide
  have hdts : ∀ name ∈ c9Part.inputNames, (alookup c9Part.inputDtypes name).isSome = true := by
    intro n hn
    simp only [c9Part, List.mem_singleton] at hn
    rw [hn]
    decide
  constructor
  · exact (c9_amended c9Part
      [("latent_sample", .np ⟨0, .float32, [1], []⟩), ("mask", .np ⟨1, .float32, [1], []⟩)] 5
      hwf hdts).1 (by decide)
  · exact (c9_amended c9Part [("mask", .np ⟨1, .float32, [1], []⟩)] 5 hwf hdts).2
      "latent_sample" (by decide)

end OptimumDiffusion
